import Mathlib

/-!
Shallow embedding of the candidate-matching core of the
`openlr-dereferencer-python` repository, restricted to the parts the
claims under scrutiny are about:

* `openlr_dereferencer/maps/wgs84.py` — `WGS84GeoTool.interpolate`,
  `WGS84GeoTool.split_line`, `WGS84GeoTool.join_lines`;
* `openlr_dereferencer/decoding/routes.py` — `PointOnLine`, `Route`;
* `openlr_dereferencer/decoding/path_math.py` — `remove_offsets`,
  `compute_bearing`;
* `openlr_dereferencer/decoding/line_decoding.py` — `dereference_path`,
  `decode_line`.

Numbers are modelled by `ℚ` (the claims are about control flow and exact
arithmetic, not floating-point rounding).  The ellipsoidal primitives
`distance`, `bearing`, `extrapolate` and the degree conversion delegate to
`geographiclib` in the source and are out of the embedded core; they are
kept abstract as a parameter bundle `Geo`, exactly mirroring how
`interpolate`, `split_line` and `compute_bearing` only access them through
`self.distance` / `self.bearing` / `self.extrapolate` / `math.degrees`.
Fallible code (Python `raise`) is modelled with `Except` / `Option`.
-/

/-- A WGS84 coordinate: a (longitude, latitude) pair, `openlr.Coordinates`
in the source. -/
abbrev Coord : Type := ℚ × ℚ

/-- The abstract ellipsoidal primitives of `GeoTool`
(`maps/abstract.py`) that the embedded functions call but whose internals
(`geographiclib` calls in `maps/wgs84.py`) are outside the embedded core:
`distance`, `bearing` (returning an abstract angle; radians in the
source), `extrapolate`, and `math.degrees` (abstract because the real
conversion multiplies by the irrational 180/π). -/
structure Geo where
  dist : Coord → Coord → ℚ
  bearing : Coord → Coord → ℚ
  extrapolate : Coord → ℚ → ℚ → Coord
  degrees : ℚ → ℚ

/-- The consecutive-pair segment list
`[(path[i], path[i+1]) for i in range(len(path)-1)]` built by
`WGS84GeoTool.interpolate`. -/
def segs : List Coord → List (Coord × Coord)
  | a :: b :: rest => (a, b) :: segs (b :: rest)
  | _ => []

/-- The `for (point1, point2) in segments:` loop body of
`WGS84GeoTool.interpolate` (`wgs84.py` lines 71-78): `some` when the loop
returns early, `none` when it falls through. -/
def interpLoop (G : Geo) (r : ℚ) : List (Coord × Coord) → Option Coord
  | [] => none
  | (p1, p2) :: rest =>
    let segmentLength := G.dist p1 p2
    if r = 0 then some p1
    else if r < segmentLength then some (G.extrapolate p1 r (G.bearing p1 p2))
    else interpLoop G (r - segmentLength) rest

/-- `WGS84GeoTool.interpolate` (`wgs84.py` lines 65-79).  `none` models the
`IndexError` that `segments[-1][1]` raises when the path has fewer than two
coordinates. -/
def interpolate (G : Geo) (path : List Coord) (d : ℚ) : Option Coord :=
  let segments := segs path
  match interpLoop G d segments with
  | some c => some c
  | none => (segments.getLast?).map Prod.snd

/-- Total length of a polyline: the sum of the primitive distances over
consecutive vertex pairs (`WGS84GeoTool.line_string_length`). -/
def lineLen (G : Geo) (path : List Coord) : ℚ :=
  (segs path).foldr (fun s acc => G.dist s.1 s.2 + acc) 0

theorem segs_eq_nil (path : List Coord) (h : path.length < 2) : segs path = [] := by
  match path with
  | [] => rfl
  | [_] => rfl
  | _ :: _ :: _ => exact absurd h (by simp)

theorem segs_getLast?_snd : ∀ (rest : List Coord) (a b : Coord),
    ((segs (a :: b :: rest)).getLast?).map Prod.snd = (b :: rest).getLast? := by
  intro rest
  induction rest with
  | nil => intro a b; rfl
  | cons c rest ih =>
    intro a b
    show (((a, b) :: segs (b :: c :: rest)).getLast?).map Prod.snd = _
    have hs : segs (b :: c :: rest) = (b, c) :: segs (c :: rest) := rfl
    rw [hs, List.getLast?_cons_cons, ← hs, ih b c]
    exact (List.getLast?_cons_cons ..).symm

theorem foldr_dist_nonneg (G : Geo) (hnn : ∀ a b, 0 ≤ G.dist a b) :
    ∀ l : List (Coord × Coord), 0 ≤ l.foldr (fun s acc => G.dist s.1 s.2 + acc) 0 := by
  intro l
  induction l with
  | nil => simp
  | cons t ts iht => simp only [List.foldr]; have := hnn t.1 t.2; linarith

theorem interpLoop_ge (G : Geo) (hnn : ∀ a b, 0 ≤ G.dist a b) :
    ∀ (l : List (Coord × Coord)) (r : ℚ),
      (l.foldr (fun s acc => G.dist s.1 s.2 + acc) 0) < r → interpLoop G r l = none := by
  intro l
  induction l with
  | nil => intro r _; rfl
  | cons s rest ih =>
    intro r hr
    simp only [List.foldr] at hr
    have hrest : 0 ≤ rest.foldr (fun s acc => G.dist s.1 s.2 + acc) 0 :=
      foldr_dist_nonneg G hnn rest
    obtain ⟨p1, p2⟩ := s
    simp only [interpLoop]
    have h0 : r ≠ 0 := by
      have := hnn p1 p2
      intro h; rw [h] at hr; simp only at hr; linarith
    have h1 : ¬ (r < G.dist p1 p2) := by simp only at hr; push_neg; linarith
    rw [if_neg h0, if_neg h1]
    apply ih
    simp only at hr
    linarith

/-- The value of `WGS84GeoTool.interpolate` on a two-point path, as called
by `split_line` for the split point (`wgs84.py` line 93).  Lemma
`interpolate_pair` proves it agrees with `interpolate`. -/
def interp2 (G : Geo) (pf pt : Coord) (r : ℚ) : Coord :=
  if r = 0 then pf
  else if r < G.dist pf pt then G.extrapolate pf r (G.bearing pf pt)
  else pt

theorem interpolate_pair (G : Geo) (pf pt : Coord) (r : ℚ) :
    interpolate G [pf, pt] r = some (interp2 G pf pt r) := by
  simp only [interpolate, interp2, segs, interpLoop]
  by_cases h0 : r = 0
  · simp [h0]
  · by_cases h1 : r < G.dist pf pt
    · simp [h0, h1]
    · simp [h0, h1]

/-- The `for (point_from, point_to) in pairwise(line.coords):` loop of
`WGS84GeoTool.split_line` (`wgs84.py` lines 87-99), fused over the phase
before and after the split point is found.  Returns the accumulated
`first_part` and `some second_part` when a split point was set, `none`
otherwise.  Once the split happens at a segment, `second_part` is
`[splitpoint, point_to]` followed by the `point_to` of every later
segment. -/
def splitCore (G : Geo) (r : ℚ) : List (Coord × Coord) → List Coord × Option (List Coord)
  | [] => ([], none)
  | (pf, pt) :: rest =>
    if r < G.dist pf pt then
      (if interp2 G pf pt r ≠ pf then [pf, interp2 G pf pt r] else [pf],
        some (interp2 G pf pt r :: pt :: rest.map Prod.snd))
    else
      (pf :: (splitCore G (r - G.dist pf pt) rest).1, (splitCore G (r - G.dist pf pt) rest).2)

/-- `WGS84GeoTool.split_line` (`wgs84.py` lines 81-104).  A `none`
component models the `None` the source returns for a part that would
degenerate to a point; when no split point was found the source returns
the original `line` object unchanged. -/
def split_line (G : Geo) (line : List Coord) (metersInto : ℚ) :
    Option (List Coord) × Option (List Coord) :=
  match splitCore G metersInto (segs line) with
  | (_, none) => (some line, none)
  | (f, some s) =>
    ((if 1 < f.length then some f else none), (if 1 < s.length then some s else none))

/-- Error outcomes of the embedded geometry helpers: `disconnected` models
the `ValueError("Lines are not connected")` of `join_lines` (the
`DisconnectedGeometries` wire name), `indexError` the `IndexError` of
`cs[0]` on an empty coordinate sequence. -/
inductive JoinErr where
  | disconnected
  | indexError
deriving DecidableEq

/-- The `for line in lines:` loop of `WGS84GeoTool.join_lines`
(`wgs84.py` lines 110-121), with the accumulated `coords` and the `last`
endpoint threaded as arguments. -/
def joinGo (acc : List Coord) (last : Option Coord) :
    List (List Coord) → Except JoinErr (List Coord)
  | [] => .ok acc
  | cs :: rest =>
    match cs with
    | [] => .error .indexError
    | c0 :: ctail =>
      match last with
      | none => joinGo (acc ++ (c0 :: ctail)) (some (ctail.getLastD c0)) rest
      | some lv =>
        if c0 ≠ lv then .error .disconnected
        else joinGo (acc ++ ctail) (some (ctail.getLastD c0)) rest

/-- `WGS84GeoTool.join_lines` (`wgs84.py` lines 106-123), returning the
coordinate list of the resulting `LineString`. -/
def join_lines (lines : List (List Coord)) : Except JoinErr (List Coord) :=
  joinGo [] none lines

/-- The concatenation the spec describes for connected input
("concatenate polylines", "without duplicating the shared endpoints"):
the first polyline in full, every later one without its first vertex. -/
def specConcat : List (List Coord) → List Coord
  | [] => []
  | cs :: rest => cs ++ (rest.map List.tail).flatten

/-- Adjacent-connectivity of a polyline sequence: each polyline starts at
the last coordinate of its predecessor (transcribed from the spec's
"fails ... if consecutive endpoints differ"). -/
def connectedLines (lines : List (List Coord)) : Prop :=
  List.Chain' (fun A B => A.getLast? = B.head?) lines

instance (lines : List (List Coord)) : Decidable (connectedLines lines) :=
  inferInstanceAs (Decidable (List.Chain' _ _))

/-- A map line (`maps/abstract.py`, class `Line`): a hashable id, a
polyline geometry and a length in metres reported by the map reader.
`Line.coordinates()` in the source unpacks the geometry's coordinate
sequence, which is `geometry` itself in this model. -/
structure Line where
  line_id : ℕ
  geometry : List Coord
  length : ℚ
deriving DecidableEq

/-- `PointOnLine` (`routes.py` lines 10-17): a line plus a relative
offset. -/
structure PointOnLine where
  line : Line
  relative_offset : ℚ
deriving DecidableEq

/-- `PointOnLine.distance_from_start` (`routes.py` lines 27-29). -/
def PointOnLine.distance_from_start (p : PointOnLine) : ℚ :=
  p.relative_offset * p.line.length

/-- `PointOnLine.distance_to_end` (`routes.py` lines 31-33). -/
def PointOnLine.distance_to_end (p : PointOnLine) : ℚ :=
  (1 - p.relative_offset) * p.line.length

/-- `PointOnLine.from_abs_offset` (`routes.py` lines 39-48). -/
def PointOnLine.from_abs_offset (line : Line) (meters_into : ℚ) : PointOnLine :=
  if 0 ≤ meters_into then ⟨line, meters_into / line.length⟩
  else ⟨line, (line.length + meters_into) / line.length⟩

/-- `Route` (`routes.py` lines 51-58).  The source's third field is named
`end`, a reserved word in Lean; it is called `stop` here. -/
structure Route where
  start : PointOnLine
  path_inbetween : List Line
  stop : PointOnLine
deriving DecidableEq

/-- The `Route.lines` property (`routes.py` lines 60-70): start line,
then each in-between line whose id differs from the previous entry, with
the last entry dropped when it shares the end line's id, then the end
line. -/
def Route.lines (r : Route) : List Line :=
  let base :=
    r.path_inbetween.foldl
      (fun res l => if l.line_id ≠ (res.getLastD r.start.line).line_id then res ++ [l] else res)
      [r.start.line]
  let base2 := if r.stop.line.line_id = (base.getLastD r.start.line).line_id
    then base.dropLast else base
  base2 ++ [r.stop.line]

/-- `Route.absolute_start_offset` (`routes.py` lines 82-85). -/
def Route.absolute_start_offset (r : Route) : ℚ :=
  r.start.distance_from_start

/-- `Route.absolute_end_offset` (`routes.py` lines 87-90). -/
def Route.absolute_end_offset (r : Route) : ℚ :=
  r.stop.distance_to_end

/-- An external `openlr.LocationReferencePoint`; only the fields the
embedded code paths touch are kept (the decoder treats the rest through
collaborators that are outside the embedded core). -/
structure LRP where
  lon : ℚ
  lat : ℚ
  frc : ℕ
  bear : ℚ
deriving DecidableEq

/-- A scored candidate (`decoding/candidate.py`, not under scrutiny
itself): a `PointOnLine` with its total score. -/
structure Candidate where
  pol : PointOnLine
  score : ℚ
deriving DecidableEq

/-- The decoder's final output type (`decoding/line_location.py`): lines
plus absolute offsets.  Only its existence matters for the embedded entry
points. -/
structure LineLocation where
  lines : List Line
  p_off : ℚ
  n_off : ℚ
deriving DecidableEq

/-- Failure outcomes of the embedded decoding functions.
`offsetTooLarge` models `LRDecodeError("Offset is bigger than line
location path")` (wire name `OffsetTooLarge`); `noCandidatesForLRP lrp`
models `LRDecodeError(f"No candidates found for first LRP {first_lrp}")`
(wire name `NoCandidatesForLRP`, carrying the offending LRP);
`typeErrorRouteArity` models the `TypeError` CPython raises when
`path_math.remove_offsets` calls `Route(start, lines, end, geo_tool)`
(`path_math.py` lines 40-45) with four positional arguments while `Route`
(`routes.py` lines 51-58) is a `NamedTuple` with exactly three fields;
`indexError` models an `IndexError` on an empty sequence; `other` stands
for any failure raised inside an external collaborator. -/
inductive DecodeError where
  | offsetTooLarge
  | noCandidatesForLRP (lrp : LRP)
  | typeErrorRouteArity
  | indexError
  | other
deriving DecidableEq

/-- The positive-offset loop of `remove_offsets` (`path_math.py` lines
23-27): `while remaining_poff >= lines[0].length:` pop the first line and
subtract its length, raising `LRDecodeError` when the list empties.  The
`[]` case is unreachable from `remove_offsets` (`Route.lines` is never
empty). -/
def popForward (r : ℚ) : List Line → Except DecodeError (ℚ × List Line)
  | [] => .error .offsetTooLarge
  | l :: rest =>
    if l.length ≤ r then
      match rest with
      | [] => .error .offsetTooLarge
      | _ :: _ => popForward (r - l.length) rest
    else .ok (r, l :: rest)

/-- The negative-offset loop of `remove_offsets` (`path_math.py` lines
30-34): identical to `popForward` but popping `lines[-1]` with
`lines.pop()`, modelled by running the forward loop on the reversed
list. -/
def popBackward (r : ℚ) (lines : List Line) : Except DecodeError (ℚ × List Line) :=
  (popForward r lines.reverse).map (fun p => (p.1, p.2.reverse))

/-- `remove_offsets` (`path_math.py` lines 15-45) up to and excluding its
final `Route(...)` construction: both popping loops, then
`start_line = lines.pop(0)`, `end_line = lines.pop()` when any line
remains (else `end_line = start_line`), and the two
`PointOnLine.from_abs_offset` arguments of `path_math.py` lines 41-43.
The result triple is exactly the first three arguments passed to the
`Route` constructor.  The `[]` case is unreachable: a successful
`popBackward` always leaves a nonempty list. -/
def remove_offsets_core (path : Route) (p_off n_off : ℚ) :
    Except DecodeError (PointOnLine × List Line × PointOnLine) := do
  let lines := path.lines
  let (remaining_poff, lines1) ← popForward (p_off + path.absolute_start_offset) lines
  let (remaining_noff, lines2) ← popBackward (n_off + path.absolute_end_offset) lines1
  match lines2 with
  | [] => .error .indexError
  | start_line :: rest =>
    match rest with
    | [] =>
      .ok (PointOnLine.from_abs_offset start_line remaining_poff, [],
        PointOnLine.from_abs_offset start_line (start_line.length - remaining_noff))
    | _ :: _ =>
      let end_line := rest.getLastD start_line
      .ok (PointOnLine.from_abs_offset start_line remaining_poff, rest.dropLast,
        PointOnLine.from_abs_offset end_line (end_line.length - remaining_noff))

/-- `remove_offsets` (`path_math.py` lines 15-45), the GeoTool-
parameterised variant.  Its final statement,
`return Route(PointOnLine.from_abs_offset(start_line, remaining_poff),
lines, PointOnLine.from_abs_offset(end_line, end_line.length -
remaining_noff), geo_tool)`, passes FOUR positional arguments to the
three-field `NamedTuple` `Route` of `routes.py` lines 51-58 (`start`,
`path_inbetween`, `end`), so CPython raises
`TypeError: __new__() takes 4 positional arguments but 5 were given`
before any `Route` value exists; hence every execution that reaches the
constructor is modelled by `.error .typeErrorRouteArity`. -/
def remove_offsets (path : Route) (p_off n_off : ℚ) : Except DecodeError Route :=
  match remove_offsets_core path p_off n_off with
  | .error e => .error e
  | .ok _ => .error .typeErrorRouteArity

/-- Python's float modulo with modulus 360, as in `degrees(bear) % 360`
(`path_math.py` line 117): the representative in `[0, 360)`. -/
def qmod360 (x : ℚ) : ℚ := x - 360 * ⌊x / 360⌋

/-- The guard condition `candidate.position == 1.0` (respectively
`== 0.0`) of `compute_bearing` (`path_math.py` line 86).  In the source
`PointOnLine.position` is a METHOD taking a `geo_tool` argument
(`routes.py` lines 23-25), so `candidate.position` evaluates to a bound
method object, and Python's `==` between a bound method and a float is
always `False`; the comparison is therefore constantly false. -/
def positionEqFloat (candidate : PointOnLine) (x : ℚ) : Bool := false

/-- `compute_bearing` (`path_math.py` lines 76-117), the GeoTool-
parameterised variant.  `none` propagates an `IndexError` raised by
`interpolate` on a degenerate geometry.  The `lrp` argument is unused in
the source as well. -/
def compute_bearing (G : Geo) (lrp : LRP) (candidate : PointOnLine)
    (is_last_lrp : Bool) (bear_dist : ℚ) : Option ℚ :=
  if (!is_last_lrp && positionEqFloat candidate 1) ||
      (is_last_lrp && positionEqFloat candidate 0) then
    some 0
  else do
    let coordinates := candidate.line.geometry
    let origin ← interpolate G coordinates candidate.distance_from_start
    let bearing_point ←
      if coordinates.length = 2 then
        if is_last_lrp then coordinates.head? else coordinates.getLast?
      else
        if is_last_lrp then
          interpolate G coordinates (candidate.distance_from_start - bear_dist)
        else
          interpolate G coordinates (candidate.distance_from_start + bear_dist)
    some (qmod360 (G.degrees (G.bearing origin bearing_point)))

/-- `dereference_path` (`line_decoding.py` lines 17-33).  The calls into
modules absent from the embedded core are parameters:
`nominate_candidates` (the candidate list produced for the first LRP with
`is_last_lrp=False`) and `match_tail`.  The `[]` case models the
`IndexError` of `lrps[0]` on an empty reference. -/
def dereference_path
    (nominate_candidates : LRP → List Candidate)
    (match_tail : LRP → List Candidate → List LRP → Except DecodeError (List Route))
    (lrps : List LRP) : Except DecodeError (List Route) :=
  match lrps with
  | [] => .error .indexError
  | first_lrp :: rest =>
    let first_candidates := nominate_candidates first_lrp
    if first_candidates = [] then .error (.noCandidatesForLRP first_lrp)
    else match_tail first_lrp first_candidates rest

/-- `decode_line` (`line_decoding.py` lines 36-42): dereference the path,
then hand the parts to `build_line_location` (absent from the embedded
core, hence a parameter). -/
def decode_line
    (nominate_candidates : LRP → List Candidate)
    (match_tail : LRP → List Candidate → List LRP → Except DecodeError (List Route))
    (build_line_location : List Route → Except DecodeError LineLocation)
    (points : List LRP) : Except DecodeError LineLocation := do
  let parts ← dereference_path nominate_candidates match_tail points
  build_line_location parts

/-- Transcribed from the claim and spec wording for offset trimming
("while that sum ≥ first line's length, pop the first line and
subtract"): drop a prefix of the length list while the running offset is
at least the first entry. -/
def dropWhileGe (r : ℚ) : List ℚ → List ℚ
  | [] => []
  | x :: xs => if x ≤ r then dropWhileGe (r - x) xs else x :: xs

/-- A concrete instantiation of the abstract ellipsoidal primitives used
for closed witnesses and counterexamples: an exact miniature of geodesy
restricted to a meridian.  Distance is the taxicab metric, bearing is `0`
(north) when the target is not south of the origin and the abstract angle
`3` (south, converted to 180 degrees by `degrees`) otherwise, and
extrapolation moves due north or due south accordingly. -/
def modelGeo : Geo where
  dist a b := (if a.1 ≤ b.1 then b.1 - a.1 else a.1 - b.1) +
    (if a.2 ≤ b.2 then b.2 - a.2 else a.2 - b.2)
  bearing a b := if a.2 ≤ b.2 then 0 else 3
  extrapolate p d θ := if θ = 0 then (p.1, p.2 + d) else (p.1, p.2 - d)
  degrees x := 60 * x

theorem modelGeo_dist_nonneg : ∀ a b, 0 ≤ modelGeo.dist a b := by
  intro a b
  show 0 ≤ (if a.1 ≤ b.1 then b.1 - a.1 else a.1 - b.1) +
    (if a.2 ≤ b.2 then b.2 - a.2 else a.2 - b.2)
  have h1 : 0 ≤ (if a.1 ≤ b.1 then b.1 - a.1 else a.1 - b.1) := by
    by_cases h : a.1 ≤ b.1 <;> simp [h] <;> linarith
  have h2 : 0 ≤ (if a.2 ≤ b.2 then b.2 - a.2 else a.2 - b.2) := by
    by_cases h : a.2 ≤ b.2 <;> simp [h] <;> linarith
  linarith

theorem segs_map_snd : ∀ l : List Coord, (segs l).map Prod.snd = l.tail := by
  intro l
  induction l with
  | nil => rfl
  | cons a l ih =>
    match l with
    | [] => rfl
    | b :: rest =>
      show List.map Prod.snd ((a, b) :: segs (b :: rest)) = b :: rest
      rw [List.map_cons, ih]
      rfl

theorem splitCore_no_split (G : Geo) (hnn : ∀ a b, 0 ≤ G.dist a b) :
    ∀ (segl : List (Coord × Coord)) (r : ℚ),
      segl.foldr (fun s acc => G.dist s.1 s.2 + acc) 0 ≤ r →
      (splitCore G r segl).2 = none := by
  intro segl
  induction segl with
  | nil => intro r _; rfl
  | cons s rest ih =>
    intro r hr
    obtain ⟨pf, pt⟩ := s
    simp only [List.foldr] at hr
    have hrest : 0 ≤ rest.foldr (fun s acc => G.dist s.1 s.2 + acc) 0 :=
      foldr_dist_nonneg G hnn rest
    have h1 : ¬ (r < G.dist pf pt) := by push_neg; linarith
    simp only [splitCore, if_neg h1]
    apply ih
    linarith

/-- C4, counterexample: the claim says the first component of
`split_line(poly, d)` is `None` for every `d ≤ 0`, but at the concrete
polyline `[(0,0),(0,10)]` and `d = -5` the split point is extrapolated
backwards from the first vertex and a two-point first part is returned. -/
theorem split_line_neg_first_not_none :
    ((-5 : ℚ) ≤ 0) ∧
      split_line modelGeo [((0 : ℚ), (0 : ℚ)), (0, 10)] (-5) =
        (some [(0, 0), (0, -5)], some [(0, -5), (0, 10)]) ∧
      (some [((0 : ℚ), (0 : ℚ)), (0, -5)] : Option (List Coord)) ≠ none := by
  refine ⟨by norm_num, ?_, by simp⟩
  norm_num [split_line, splitCore, segs, interp2, modelGeo]

/-- C4 (amended): `split_line(poly, d)` returns `(None, poly)` when
`d = 0` and the first segment has positive length, and `(poly, None)`
whenever `d ≥ length(poly)` (segment lengths being nonnegative); for
negative `d` the first component is in general not `None`. -/
theorem split_line_boundary (G : Geo) (line : List Coord) (d : ℚ)
    (hnn : ∀ a b, 0 ≤ G.dist a b) :
    (d = 0 → (∃ a b rest, line = a :: b :: rest ∧ 0 < G.dist a b) →
      split_line G line d = (none, some line)) ∧
    (lineLen G line ≤ d → split_line G line d = (some line, none)) := by
  constructor
  · intro hd hex
    obtain ⟨a, b, rest, hline, hpos⟩ := hex
    subst hd hline
    have hsp : interp2 G a b 0 = a := by simp [interp2]
    have hcore : splitCore G 0 (segs (a :: b :: rest)) = ([a], some (a :: b :: rest)) := by
      show splitCore G 0 ((a, b) :: segs (b :: rest)) = _
      rw [splitCore, if_pos hpos, hsp]
      simp [segs_map_snd]
    simp only [split_line, hcore]
    simp
  · intro hlen
    have h2 := splitCore_no_split G hnn (segs line) d hlen
    simp only [split_line]
    rcases hq : splitCore G d (segs line) with ⟨f0, o⟩
    rw [hq] at h2
    cases o with
    | none => rfl
    | some s => exact absurd h2 (by simp)

/-- Witness for `split_line_boundary` at a concrete meridian segment:
`d = 0` keeps the whole line in the second part, `d = 12 ≥ length = 10`
in the first. -/
theorem split_line_boundary_witness :
    split_line modelGeo [((0 : ℚ), (0 : ℚ)), (0, 10)] 0 =
        (none, some [((0 : ℚ), (0 : ℚ)), (0, 10)]) ∧
      split_line modelGeo [((0 : ℚ), (0 : ℚ)), (0, 10)] 12 =
        (some [((0 : ℚ), (0 : ℚ)), (0, 10)], none) := by
  constructor
  · exact (split_line_boundary modelGeo _ 0 modelGeo_dist_nonneg).1 rfl
      ⟨(0, 0), (0, 10), [], rfl, by norm_num [modelGeo]⟩
  · exact (split_line_boundary modelGeo _ 12 modelGeo_dist_nonneg).2
      (by norm_num [lineLen, segs, modelGeo])

theorem segs_length : ∀ l : List Coord, (segs l).length = l.length - 1 := by
  intro l
  induction l with
  | nil => rfl
  | cons a l ih =>
    match l with
    | [] => rfl
    | b :: rest =>
      show ((a, b) :: segs (b :: rest)).length = _
      simp only [List.length_cons, ih]
      simp

theorem segs_append : ∀ (xs : List Coord) (y : Coord) (ys : List Coord),
    segs (xs ++ y :: ys) = segs (xs ++ [y]) ++ segs (y :: ys) := by
  intro xs
  induction xs with
  | nil => intro y ys; rfl
  | cons a xs ih =>
    intro y ys
    match xs with
    | [] => rfl
    | b :: xs =>
      show segs (a :: b :: (xs ++ y :: ys)) = segs (a :: b :: (xs ++ [y])) ++ _
      have h1 : segs (a :: b :: (xs ++ y :: ys)) = (a, b) :: segs (b :: (xs ++ y :: ys)) := rfl
      have h2 : segs (a :: b :: (xs ++ [y])) = (a, b) :: segs (b :: (xs ++ [y])) := rfl
      rw [h1, h2, List.cons_append]
      have := ih y ys
      rw [show b :: (xs ++ y :: ys) = (b :: xs) ++ y :: ys from rfl,
        show b :: (xs ++ [y]) = (b :: xs) ++ [y] from rfl, this]

theorem segs_map_fst : ∀ l : List Coord, (segs l).map Prod.fst = l.dropLast := by
  intro l
  induction l with
  | nil => rfl
  | cons a l ih =>
    match l with
    | [] => rfl
    | b :: rest =>
      show List.map Prod.fst ((a, b) :: segs (b :: rest)) = (a :: b :: rest).dropLast
      rw [List.map_cons, ih]
      rfl

theorem foldr_dist_eq_sum (G : Geo) : ∀ sl : List (Coord × Coord),
    sl.foldr (fun s acc => G.dist s.1 s.2 + acc) 0 = (sl.map (fun s => G.dist s.1 s.2)).sum := by
  intro sl
  induction sl with
  | nil => rfl
  | cons s rest ih => simp [List.foldr, ih]

theorem join_pair (f s : List Coord) (hf : f ≠ []) (hs : s ≠ [])
    (h : f.getLast? = s.head?) :
    join_lines [f, s] = .ok (f ++ s.tail) := by
  match f, hf with
  | c0 :: ctail, _ =>
    match s, hs with
    | s0 :: stail, _ =>
      have hlv : ctail.getLastD c0 = s0 := by
        rw [List.getLast?_cons, List.head?_cons] at h
        rw [List.getLastD_eq_getLast?]
        exact Option.some_injective _ h
      show joinGo [] none ((c0 :: ctail) :: (s0 :: stail) :: []) = _
      simp only [joinGo, hlv]
      simp [joinGo]

theorem splitCore_at_vertex (G : Geo) :
    ∀ (s1 : List (Coord × Coord)) (pf pt : Coord) (s2 : List (Coord × Coord)),
      (∀ s ∈ s1, 0 ≤ G.dist s.1 s.2) → 0 < G.dist pf pt →
      splitCore G ((s1.map (fun s => G.dist s.1 s.2)).sum) (s1 ++ (pf, pt) :: s2) =
        (s1.map Prod.fst ++ [pf], some (pf :: pt :: s2.map Prod.snd)) := by
  intro s1
  induction s1 with
  | nil =>
    intro pf pt s2 _ hpos
    show splitCore G 0 ((pf, pt) :: s2) = _
    rw [splitCore, if_pos hpos]
    simp [interp2]
  | cons s s1 ih =>
    intro pf pt s2 hnn hpos
    obtain ⟨a, b⟩ := s
    have hsum : 0 ≤ (s1.map (fun s => G.dist s.1 s.2)).sum := by
      apply List.sum_nonneg
      intro x hx
      obtain ⟨s', hs', rfl⟩ := List.mem_map.mp hx
      exact hnn s' (List.mem_cons_of_mem _ hs')
    have hr : ((((a, b) :: s1).map (fun s => G.dist s.1 s.2)).sum) =
        G.dist a b + (s1.map (fun s => G.dist s.1 s.2)).sum := by simp
    have hge : ¬ ((((a, b) :: s1).map (fun s => G.dist s.1 s.2)).sum < G.dist a b) := by
      rw [hr]; push_neg; linarith
    show splitCore G _ ((a, b) :: (s1 ++ (pf, pt) :: s2)) = _
    rw [splitCore, if_neg hge, hr]
    have harg : G.dist a b + (s1.map (fun s => G.dist s.1 s.2)).sum - G.dist a b =
        (s1.map (fun s => G.dist s.1 s.2)).sum := by ring
    rw [harg, ih pf pt s2 (fun s hs => hnn s (List.mem_cons_of_mem _ hs)) hpos]
    rfl

/-- C5, counterexample: at the two-point meridian line `[(0,0),(0,10)]`
and the interior offset `d = 4` (`0 < 4 < length = 10`), joining the two
parts of the split yields `[(0,0),(0,4),(0,10)]`: an extra vertex is
introduced at the split point and the vertex lists differ, contradicting
the claimed vertex-list equality for every `d ∈ (0, length)`. -/
theorem split_join_not_inverse :
    (0 : ℚ) < 4 ∧ (4 : ℚ) < lineLen modelGeo [((0 : ℚ), (0 : ℚ)), (0, 10)] ∧
      split_line modelGeo [((0 : ℚ), (0 : ℚ)), (0, 10)] 4 =
        (some [(0, 0), (0, 4)], some [(0, 4), (0, 10)]) ∧
      join_lines [[((0 : ℚ), (0 : ℚ)), (0, 4)], [(0, 4), (0, 10)]] =
        .ok [(0, 0), (0, 4), (0, 10)] ∧
      ([((0 : ℚ), (0 : ℚ)), (0, 4), (0, 10)] : List Coord) ≠ [(0, 0), (0, 10)] := by
  refine ⟨by norm_num, by norm_num [lineLen, segs, modelGeo], ?_, ?_, by simp⟩
  · norm_num [split_line, splitCore, segs, interp2, modelGeo]
  · norm_num [join_lines, joinGo]

/-- C5 (amended): for an interior offset `d ∈ (0, length)` that is the
cumulative metric offset of an interior VERTEX of the polyline (and
positive-length segments around it), `split_line` cuts exactly at that
vertex and `join_lines` recombines the two parts into the original
vertex list; for other interior offsets the joined result carries one
extra vertex at the split point (see the counterexample). -/
theorem split_join_inverse_at_vertex (G : Geo) (l1 : List Coord) (v w : Coord)
    (l2 : List Coord) (d : ℚ) (h1 : l1 ≠ [])
    (hnn : ∀ s ∈ segs (l1 ++ [v]), 0 ≤ G.dist s.1 s.2)
    (hpos : 0 < G.dist v w)
    (hd : d = lineLen G (l1 ++ [v])) :
    split_line G (l1 ++ v :: w :: l2) d = (some (l1 ++ [v]), some (v :: w :: l2)) ∧
      join_lines [l1 ++ [v], v :: w :: l2] = .ok (l1 ++ v :: w :: l2) := by
  have hsegs : segs (l1 ++ v :: w :: l2) = segs (l1 ++ [v]) ++ (v, w) :: segs (w :: l2) :=
    segs_append l1 v (w :: l2)
  have hsum : d = ((segs (l1 ++ [v])).map (fun s => G.dist s.1 s.2)).sum := by
    rw [hd]; exact foldr_dist_eq_sum G _
  have hcore := splitCore_at_vertex G (segs (l1 ++ [v])) v w (segs (w :: l2)) hnn hpos
  have hfst : (segs (l1 ++ [v])).map Prod.fst = l1 := by
    rw [segs_map_fst, List.dropLast_concat]
  have hsnd : (segs (w :: l2)).map Prod.snd = l2 := segs_map_snd (w :: l2)
  rw [hfst, hsnd, ← hsum] at hcore
  constructor
  · rw [split_line, hsegs, hcore]
    have hflen : 1 < (l1 ++ [v]).length := by
      match l1, h1 with
      | c :: ct, _ => simp
    simp [hflen, h1]
  · have hlast : (l1 ++ [v]).getLast? = some v := by simp
    have := join_pair (l1 ++ [v]) (v :: w :: l2) (by simp) (by simp)
      (by rw [hlast]; rfl)
    rw [this]
    simp

theorem splitCore_some_shape (G : Geo) :
    ∀ (segl : List (Coord × Coord)) (r : ℚ) (f0 s0 : List Coord),
      splitCore G r segl = (f0, some s0) →
      f0 ≠ [] ∧ ∃ sp tl, s0 = sp :: tl ∧ f0.getLast? = some sp := by
  intro segl
  induction segl with
  | nil =>
    intro r f0 s0 h
    exact absurd (congrArg Prod.snd h) (by simp [splitCore])
  | cons seg rest ih =>
    intro r f0 s0 h
    obtain ⟨pf, pt⟩ := seg
    rw [splitCore] at h
    by_cases hlt : r < G.dist pf pt
    · rw [if_pos hlt] at h
      obtain ⟨hf, hs⟩ := Prod.mk.injEq .. ▸ h
      have hs' : s0 = interp2 G pf pt r :: pt :: rest.map Prod.snd := by
        exact (Option.some_injective _ (by rw [← hs])).symm
      by_cases hsp : interp2 G pf pt r ≠ pf
      · rw [if_pos hsp] at hf
        subst hf
        exact ⟨by simp, interp2 G pf pt r, pt :: rest.map Prod.snd, hs', by simp⟩
      · rw [if_neg hsp] at hf
        subst hf
        push_neg at hsp
        exact ⟨by simp, interp2 G pf pt r, pt :: rest.map Prod.snd, hs', by simp [hsp]⟩
    · rw [if_neg hlt] at h
      obtain ⟨hf, hs⟩ := Prod.mk.injEq .. ▸ h
      have hrec : splitCore G (r - G.dist pf pt) rest =
          ((splitCore G (r - G.dist pf pt) rest).1, some s0) := by
        conv_lhs => rw [← Prod.mk.eta (p := splitCore G (r - G.dist pf pt) rest)]
        rw [hs]
      obtain ⟨hne, sp, tl, hs0, hlast⟩ := ih _ _ _ hrec
      refine ⟨by simp [← hf], sp, tl, hs0, ?_⟩
      rw [← hf, List.getLast?_cons, hlast]
      rfl

/-- C9: whenever `split_line` returns two non-`None` parts, the last
coordinate of the first part equals the first coordinate of the second
(both are the split point), and therefore `join_lines` on the pair never
raises: it returns the two parts glued without duplicating the shared
endpoint. -/
theorem split_parts_share_endpoint (G : Geo) (l : List Coord) (d : ℚ)
    (f s : List Coord) (h : split_line G l d = (some f, some s)) :
    f.getLast? = s.head? ∧ join_lines [f, s] = .ok (f ++ s.tail) := by
  rw [split_line] at h
  rcases hq : splitCore G d (segs l) with ⟨f0, o⟩
  rw [hq] at h
  cases o with
  | none => exact absurd (congrArg Prod.snd h) (by simp)
  | some s0 =>
    obtain ⟨hne, sp, tl, hs0, hlast⟩ := splitCore_some_shape G (segs l) d f0 s0 hq
    obtain ⟨hf, hs⟩ := Prod.mk.injEq .. ▸ h
    by_cases hf1 : 1 < f0.length
    · rw [if_pos hf1] at hf
      by_cases hs1 : 1 < s0.length
      · rw [if_pos hs1] at hs
        have hf' : f = f0 := (Option.some_injective _ hf).symm
        have hs' : s = s0 := (Option.some_injective _ hs).symm
        rw [hf', hs']
        have hhead : s0.head? = some sp := by rw [hs0]; rfl
        refine ⟨by rw [hlast, hhead], ?_⟩
        exact join_pair f0 s0 hne (by rw [hs0]; simp) (by rw [hlast, hhead])
      · rw [if_neg hs1] at hs
        exact absurd hs (by simp)
    · rw [if_neg hf1] at hf
      exact absurd hf (by simp)

/-- Witness for `split_parts_share_endpoint`: a concrete mid-segment
split whose parts share the split point `(0,3)` and join back without
error. -/
theorem split_parts_share_endpoint_witness :
    ([((0 : ℚ), (0 : ℚ)), (0, 3)] : List Coord).getLast? =
        ([((0 : ℚ), (3 : ℚ)), (0, 8)] : List Coord).head? ∧
      join_lines [[((0 : ℚ), (0 : ℚ)), (0, 3)], [(0, 3), (0, 8)]] =
        .ok ([((0 : ℚ), (0 : ℚ)), (0, 3)] ++ [((0 : ℚ), (3 : ℚ)), (0, 8)].tail) :=
  split_parts_share_endpoint modelGeo [(0, 0), (0, 8)] 3 [(0, 0), (0, 3)] [(0, 3), (0, 8)]
    (by norm_num [split_line, splitCore, segs, interp2, modelGeo])

/-- The connectivity invariant the `join_lines` loop maintains once a
previous endpoint `lv` exists: each remaining polyline starts at the
last coordinate of its predecessor. -/
def chainFrom (lv : Coord) : List (List Coord) → Prop
  | [] => True
  | cs :: rest => cs.head? = some lv ∧ chainFrom (cs.getLastD lv) rest

theorem getLast?_cons_getLastD (a : Coord) (l : List Coord) :
    (a :: l).getLast? = some (l.getLastD a) := by
  rw [List.getLast?_cons, List.getLastD_eq_getLast?]

theorem joinGo_ok : ∀ (rest : List (List Coord)) (acc : List Coord) (lv : Coord),
    (∀ cs ∈ rest, cs ≠ []) → chainFrom lv rest →
    joinGo acc (some lv) rest = .ok (acc ++ (rest.map List.tail).flatten) := by
  intro rest
  induction rest with
  | nil => intro acc lv _ _; simp [joinGo]
  | cons cs rest ih =>
    intro acc lv h1 hc
    have hcs : cs ≠ [] := h1 cs (List.mem_cons_self ..)
    match cs, hcs with
    | c0 :: ctail, _ =>
      obtain ⟨hhead, hrest⟩ := hc
      have hc0 : c0 = lv := by
        rw [List.head?_cons] at hhead
        exact Option.some_injective _ hhead
      have hgl : (c0 :: ctail).getLastD lv = ctail.getLastD c0 := List.getLastD_cons ..
      rw [hgl] at hrest
      show joinGo acc (some lv) ((c0 :: ctail) :: rest) = _
      rw [joinGo]
      simp only [if_neg (show ¬ (c0 ≠ lv) by simp [hc0])]
      rw [ih (acc ++ ctail) (ctail.getLastD c0) (fun x hx => h1 x (List.mem_cons_of_mem _ hx)) hrest]
      simp

theorem joinGo_err : ∀ (rest : List (List Coord)) (acc : List Coord) (lv : Coord),
    (∀ cs ∈ rest, cs ≠ []) → ¬ chainFrom lv rest →
    joinGo acc (some lv) rest = .error .disconnected := by
  intro rest
  induction rest with
  | nil => intro acc lv _ hc; exact absurd trivial hc
  | cons cs rest ih =>
    intro acc lv h1 hc
    have hcs : cs ≠ [] := h1 cs (List.mem_cons_self ..)
    match cs, hcs with
    | c0 :: ctail, _ =>
      show joinGo acc (some lv) ((c0 :: ctail) :: rest) = _
      rw [joinGo]
      by_cases hc0 : c0 = lv
      · simp only [if_neg (show ¬ (c0 ≠ lv) by simp [hc0])]
        apply ih _ _ (fun x hx => h1 x (List.mem_cons_of_mem _ hx))
        intro hrest
        apply hc
        refine ⟨by rw [List.head?_cons, hc0], ?_⟩
        rw [List.getLastD_cons]
        exact hrest
      · rw [if_pos hc0]

theorem chainFrom_iff_chain : ∀ (rest : List (List Coord)) (A : List Coord) (lv : Coord),
    A.getLast? = some lv → (∀ cs ∈ rest, cs ≠ []) →
    (List.Chain' (fun X Y => X.getLast? = Y.head?) (A :: rest) ↔ chainFrom lv rest) := by
  intro rest
  induction rest with
  | nil => intro A lv _ _; simp [chainFrom]
  | cons B rest ih =>
    intro A lv hA h1
    have hB : B ≠ [] := h1 B (List.mem_cons_self ..)
    match B, hB with
    | b0 :: btail, _ =>
      have hBlast : (b0 :: btail).getLast? = some (btail.getLastD b0) :=
        getLast?_cons_getLastD b0 btail
      have hBgl : (b0 :: btail).getLastD lv = btail.getLastD b0 := List.getLastD_cons ..
      rw [List.chain'_cons]
      show _ ↔ ((b0 :: btail).head? = some lv ∧ chainFrom ((b0 :: btail).getLastD lv) rest)
      rw [hBgl]
      rw [ih (b0 :: btail) (btail.getLastD b0) hBlast
        (fun x hx => h1 x (List.mem_cons_of_mem _ hx))]
      constructor
      · rintro ⟨h, h2⟩
        exact ⟨by rw [← h, hA], h2⟩
      · rintro ⟨h, h2⟩
        exact ⟨by rw [hA, h], h2⟩

/-- C6: under the `LineString` well-formedness assumption (every polyline
has at least two coordinates), `join_lines` returns the concatenation
with shared endpoints not duplicated when every polyline starts at its
predecessor's last coordinate, and fails with the `DisconnectedGeometries`
error (`ValueError("Lines are not connected")`) when some consecutive
endpoints differ. -/
theorem join_lines_connected_spec (lines : List (List Coord))
    (hlen : ∀ cs ∈ lines, 2 ≤ cs.length) :
    (connectedLines lines → join_lines lines = .ok (specConcat lines)) ∧
    (¬ connectedLines lines → join_lines lines = .error .disconnected) := by
  cases lines with
  | nil =>
    constructor
    · intro _; rfl
    · intro h; exact absurd List.chain'_nil h
  | cons cs rest =>
    have hcs : cs ≠ [] := by
      have := hlen cs (List.mem_cons_self ..)
      intro hnil
      rw [hnil] at this
      simp at this
    have hne : ∀ x ∈ rest, x ≠ [] := by
      intro x hx hnil
      have := hlen x (List.mem_cons_of_mem _ hx)
      rw [hnil] at this
      simp at this
    match cs, hcs with
    | c0 :: ctail, _ =>
      have hlast : (c0 :: ctail).getLast? = some (ctail.getLastD c0) :=
        getLast?_cons_getLastD c0 ctail
      have hstep : join_lines ((c0 :: ctail) :: rest) =
          joinGo (c0 :: ctail) (some (ctail.getLastD c0)) rest := by
        show joinGo [] none ((c0 :: ctail) :: rest) = _
        rw [joinGo]
        simp
      constructor
      · intro hconn
        have hcf := (chainFrom_iff_chain rest (c0 :: ctail) (ctail.getLastD c0) hlast hne).mp hconn
        rw [hstep, joinGo_ok rest (c0 :: ctail) (ctail.getLastD c0) hne hcf]
        rfl
      · intro hconn
        have hcf := (chainFrom_iff_chain rest (c0 :: ctail) (ctail.getLastD c0) hlast hne).not.mp hconn
        rw [hstep, joinGo_err rest (c0 :: ctail) (ctail.getLastD c0) hne hcf]

/-- Witness for `join_lines_connected_spec`: a connected concrete pair is
concatenated without duplicating the shared endpoint, and a pair whose
junction coordinates differ raises the disconnected error. -/
theorem join_lines_connected_spec_witness :
    join_lines [[((0 : ℚ), (0 : ℚ)), (0, 1)], [(0, 1), (0, 2)]] =
        .ok [(0, 0), (0, 1), (0, 2)] ∧
      join_lines [[((0 : ℚ), (0 : ℚ)), (0, 1)], [(5, 5), (0, 2)]] =
        .error .disconnected := by
  constructor
  · have h := (join_lines_connected_spec [[(0, 0), (0, 1)], [(0, 1), (0, 2)]]
      (by simp)).1 (by simp [connectedLines])
    simpa [specConcat] using h
  · exact (join_lines_connected_spec [[(0, 0), (0, 1)], [(5, 5), (0, 2)]]
      (by simp)).2 (by norm_num [connectedLines, List.chain'_cons, Prod.ext_iff])

theorem popForward_spec : ∀ (ls : List Line) (r : ℚ),
    (dropWhileGe r (ls.map Line.length) = [] ∧ popForward r ls = .error .offsetTooLarge)
    ∨ (∃ rp sv, sv ≠ [] ∧ popForward r ls = .ok (rp, sv) ∧
        sv.map Line.length = dropWhileGe r (ls.map Line.length)) := by
  intro ls
  induction ls with
  | nil => intro r; left; exact ⟨rfl, rfl⟩
  | cons l rest ih =>
    intro r
    by_cases hle : l.length ≤ r
    · cases rest with
      | nil =>
        left
        constructor
        · show dropWhileGe r [l.length] = []
          simp [dropWhileGe, hle]
        · simp [popForward, hle]
      | cons l2 rest2 =>
        rcases ih (r - l.length) with ⟨h1, h2⟩ | ⟨rp, sv, hsv, h2, h3⟩
        · left
          refine ⟨?_, ?_⟩
          · show dropWhileGe r (l.length :: (l2 :: rest2).map Line.length) = []
            simp only [dropWhileGe, if_pos hle]
            exact h1
          · rw [popForward, if_pos hle]
            exact h2
        · right
          refine ⟨rp, sv, hsv, by rw [popForward, if_pos hle]; exact h2, ?_⟩
          show sv.map Line.length = dropWhileGe r (l.length :: (l2 :: rest2).map Line.length)
          simp only [dropWhileGe, if_pos hle]
          exact h3
    · right
      refine ⟨r, l :: rest, by simp, by simp [popForward, hle], ?_⟩
      show (l :: rest).map Line.length = dropWhileGe r (l.length :: rest.map Line.length)
      simp only [dropWhileGe, if_neg hle]
      rfl

theorem popBackward_spec (ls : List Line) (r : ℚ) :
    (dropWhileGe r ((ls.map Line.length).reverse) = [] ∧
      popBackward r ls = .error .offsetTooLarge)
    ∨ (∃ rp sv, sv ≠ [] ∧ popBackward r ls = .ok (rp, sv) ∧
        sv.reverse.map Line.length = dropWhileGe r ((ls.map Line.length).reverse)) := by
  have hrev : ls.reverse.map Line.length = (ls.map Line.length).reverse :=
    List.map_reverse ..
  rcases popForward_spec ls.reverse r with ⟨h1, h2⟩ | ⟨rp, sv, hsv, h2, h3⟩
  · left
    rw [hrev] at h1
    refine ⟨h1, ?_⟩
    rw [popBackward, h2]
    rfl
  · right
    refine ⟨rp, sv.reverse, by simpa using hsv, ?_, ?_⟩
    · rw [popBackward, h2]
      rfl
    · rw [List.reverse_reverse, h3, hrev]

theorem exceptBind_ok {ε α β : Type} (a : α) (f : α → Except ε β) :
    (Except.ok a : Except ε α) >>= f = f a := rfl

theorem exceptBind_error {ε α β : Type} (e : ε) (f : α → Except ε β) :
    (Except.error e : Except ε α) >>= f = Except.error e := rfl

theorem exceptMap_ok {ε α β : Type} (f : α → β) (a : α) :
    Except.map f (Except.ok a : Except ε α) = Except.ok (f a) := rfl

/-- C2: the offset-trimming loops of the GeoTool-parameterised
`remove_offsets` pop head lines while the running positive offset
(`p_off` plus the route's absolute start offset) is at least the first
line's length, subtracting each popped length, and symmetrically pop
tail lines for the running negative offset; the function fails with the
`OffsetTooLarge` error (`LRDecodeError("Offset is bigger than line
location path")`) exactly when this popping empties the flattened line
list (expressed through the transcription `dropWhileGe` of the spec's
loop over the list of line lengths). -/
theorem remove_offsets_offsetTooLarge_iff (path : Route) (p_off n_off : ℚ) :
    remove_offsets path p_off n_off = .error .offsetTooLarge ↔
      (dropWhileGe (p_off + path.absolute_start_offset) (path.lines.map Line.length) = [] ∨
        dropWhileGe (n_off + path.absolute_end_offset)
          ((dropWhileGe (p_off + path.absolute_start_offset)
            (path.lines.map Line.length)).reverse) = []) := by
  rcases popForward_spec path.lines (p_off + path.absolute_start_offset) with
    ⟨hd1, hp1⟩ | ⟨rp, sv, hsv, hp1, hm1⟩
  · have hval : remove_offsets path p_off n_off = .error .offsetTooLarge := by
      simp only [remove_offsets, remove_offsets_core, hp1, exceptBind_error]
    constructor
    · intro _
      exact Or.inl hd1
    · intro _
      exact hval
  · rcases popBackward_spec sv (n_off + path.absolute_end_offset) with
      ⟨hd2, hp2⟩ | ⟨rn, sv2, hsv2, hp2, hm2⟩
    · rw [hm1] at hd2
      have hval : remove_offsets path p_off n_off = .error .offsetTooLarge := by
        simp only [remove_offsets, remove_offsets_core, hp1, exceptBind_ok, hp2,
          exceptBind_error]
      constructor
      · intro _
        exact Or.inr hd2
      · intro _
        exact hval
    · have hleft : dropWhileGe (p_off + path.absolute_start_offset)
          (path.lines.map Line.length) ≠ [] := by
        rw [← hm1]
        simpa using hsv
      have hright : dropWhileGe (n_off + path.absolute_end_offset)
          ((dropWhileGe (p_off + path.absolute_start_offset)
            (path.lines.map Line.length)).reverse) ≠ [] := by
        rw [← hm1, ← hm2]
        simpa using (show sv2.reverse ≠ [] by simpa using hsv2)
      have hval : remove_offsets path p_off n_off = .error .typeErrorRouteArity := by
        match sv2, hsv2 with
        | s0 :: rest0, _ =>
          cases rest0 with
          | nil =>
            simp only [remove_offsets, remove_offsets_core, hp1, exceptBind_ok, hp2]
          | cons s1 rest1 =>
            simp only [remove_offsets, remove_offsets_core, hp1, exceptBind_ok, hp2]
      constructor
      · intro habs
        rw [hval] at habs
        simp at habs
      · intro habs
        rcases habs with h | h
        · exact absurd h hleft
        · exact absurd h hright

/-- A concrete one-line route (line length 100, offsets 0 and 1) used to
evaluate `remove_offsets` at a failing input. -/
def demoLine : Line := ⟨1, [(0, 0), (0, 100)], 100⟩

/-- The route over `demoLine` covering the whole line. -/
def demoRoute : Route := ⟨⟨demoLine, 0⟩, [], ⟨demoLine, 1⟩⟩

/-- C1 (code bug): at the failing input `demoRoute` with `p_off = 10`,
`n_off = 20` (offsets that do not exhaust the line list) the trimming
loops succeed and the three arguments prepared for the `Route`
constructor are exactly the PointOnLine values the claim describes
(`relative_offset = 10/100` on the surviving first line and
`1 - 20/100 = 4/5` on the surviving last line) — but the source then
calls `Route(start, lines, end, geo_tool)` with four positional
arguments for the three-field `NamedTuple`, so the call raises
`TypeError` instead of returning that Route. -/
theorem remove_offsets_route_arity_bug :
    remove_offsets_core demoRoute 10 20 =
        .ok (⟨demoLine, 1/10⟩, [], ⟨demoLine, 4/5⟩) ∧
      remove_offsets demoRoute 10 20 = .error .typeErrorRouteArity := by
  have hlines : demoRoute.lines = [demoLine] := by
    simp [Route.lines, demoRoute]
  have haso : demoRoute.absolute_start_offset = 0 := by
    norm_num [Route.absolute_start_offset, PointOnLine.distance_from_start, demoRoute]
  have haeo : demoRoute.absolute_end_offset = 0 := by
    norm_num [Route.absolute_end_offset, PointOnLine.distance_to_end, demoRoute]
  have hpf : popForward (10 + demoRoute.absolute_start_offset) demoRoute.lines =
      .ok (10, [demoLine]) := by
    rw [hlines, haso]
    norm_num [popForward, demoLine]
  have hpb : popBackward (20 + demoRoute.absolute_end_offset) [demoLine] =
      .ok (20, [demoLine]) := by
    rw [haeo]
    norm_num [popBackward, popForward, demoLine, exceptMap_ok]
  have hcore : remove_offsets_core demoRoute 10 20 =
      .ok (⟨demoLine, 1/10⟩, [], ⟨demoLine, 4/5⟩) := by
    simp only [remove_offsets_core, hpf, exceptBind_ok, hpb]
    norm_num [PointOnLine.from_abs_offset, demoLine]
  refine ⟨hcore, ?_⟩
  simp only [remove_offsets, hcore]

/-- C3 (code bug): the claim says `compute_bearing` returns `0.0` when
`is_last_lrp` holds and the candidate sits at offset `0` of its line
(and symmetrically at offset `L` for a non-last LRP).  The guard that
should produce that early return compares the bound METHOD
`candidate.position` with a float, which is always `False` in Python, so
the code instead interpolates a bearing point `bear_dist` metres
backwards and computes a real bearing: at the failing input (last LRP,
three-vertex northward line, `relative_offset = 0`, `bear_dist = 1/2`)
it returns `180`, not `0`. -/
theorem compute_bearing_guard_dead :
    compute_bearing modelGeo ⟨0, 0, 0, 0⟩ ⟨⟨2, [(0, 0), (0, 1), (0, 2)], 2⟩, 0⟩ true (1 / 2) =
        some 180 ∧ (180 : ℚ) ≠ 0 := by
  constructor
  · norm_num [compute_bearing, positionEqFloat, PointOnLine.distance_from_start,
      interpolate, interpLoop, segs, qmod360, modelGeo, Option.bind]
  · norm_num

/-- C7: when the first LRP's candidate list is empty, `decode_line`
(through `dereference_path`) does not build a LineLocation but fails with
the `NoCandidatesForLRP` error carrying the offending LRP, whatever the
tail matcher and location builder would do. -/
theorem decode_line_no_candidates (nominate_candidates : LRP → List Candidate)
    (match_tail : LRP → List Candidate → List LRP → Except DecodeError (List Route))
    (build_line_location : List Route → Except DecodeError LineLocation)
    (first_lrp : LRP) (rest : List LRP)
    (h : nominate_candidates first_lrp = []) :
    decode_line nominate_candidates match_tail build_line_location (first_lrp :: rest) =
      .error (.noCandidatesForLRP first_lrp) := by
  simp [decode_line, dereference_path, h, exceptBind_error]

/-- Witness for `decode_line_no_candidates`: a concrete reference whose
first LRP gets no candidates. -/
theorem decode_line_no_candidates_witness :
    (fun _ : LRP => ([] : List Candidate)) ⟨1, 2, 0, 0⟩ = [] ∧
      decode_line (fun _ => []) (fun _ _ _ => .ok []) (fun _ => .ok ⟨[], 0, 0⟩)
          [⟨1, 2, 0, 0⟩, ⟨3, 4, 0, 0⟩] =
        .error (.noCandidatesForLRP ⟨1, 2, 0, 0⟩) :=
  ⟨rfl, decode_line_no_candidates _ _ _ _ _ rfl⟩

/-- C8: `PointOnLine.from_abs_offset` divides a nonnegative absolute
offset by the line length and measures a negative one back from the end
(`(length + m) / length`); it validates nothing, so the resulting
relative offset exceeds `1` for `m > length` and is negative for
`m < -length`, leaving the documented interval `[0, 1]`. -/
theorem from_abs_offset_spec (line : Line) (m : ℚ) (h : 0 < line.length) :
    (0 ≤ m → (PointOnLine.from_abs_offset line m).relative_offset = m / line.length) ∧
    (m < 0 → (PointOnLine.from_abs_offset line m).relative_offset =
      (line.length + m) / line.length) ∧
    (line.length < m → 1 < (PointOnLine.from_abs_offset line m).relative_offset) ∧
    (m < -line.length → (PointOnLine.from_abs_offset line m).relative_offset < 0) := by
  refine ⟨?_, ?_, ?_, ?_⟩
  · intro hm
    simp [PointOnLine.from_abs_offset, hm]
  · intro hm
    simp [PointOnLine.from_abs_offset, not_le.mpr hm]
  · intro hm
    have hm0 : 0 ≤ m := le_of_lt (h.trans hm)
    simp only [PointOnLine.from_abs_offset, if_pos hm0]
    exact (one_lt_div h).mpr hm
  · intro hm
    have hneg : ¬ (0 ≤ m) := by
      push_neg
      have : -line.length < 0 := by linarith
      linarith
    simp only [PointOnLine.from_abs_offset, if_neg hneg]
    apply div_neg_of_neg_of_pos _ h
    linarith

/-- Witness for `from_abs_offset_spec` on the concrete 100-metre line:
`m = 150` lands above `1`, `m = -150` below `0`. -/
theorem from_abs_offset_spec_witness :
    1 < (PointOnLine.from_abs_offset demoLine 150).relative_offset ∧
      (PointOnLine.from_abs_offset demoLine (-150)).relative_offset < 0 :=
  ⟨(from_abs_offset_spec demoLine 150 (by norm_num [demoLine])).2.2.1
      (by norm_num [demoLine]),
    (from_abs_offset_spec demoLine (-150) (by norm_num [demoLine])).2.2.2
      (by norm_num [demoLine])⟩

/-- C10: `interpolate` returns a coordinate for every path with at least
two coordinates and every rational `d` — extrapolating backwards along
the first segment for `d < 0` and returning the last vertex for `d`
beyond the path length — and fails (the `IndexError` of
`segments[-1][1]`, modelled as `none`) for every path with fewer than two
coordinates, `d = 0` included. -/
theorem interpolate_total_spec (G : Geo) (path : List Coord) (d : ℚ)
    (hnn : ∀ a b, 0 ≤ G.dist a b) :
    (2 ≤ path.length → (interpolate G path d).isSome = true) ∧
    (path.length < 2 → interpolate G path d = none) ∧
    (∀ a b rest, path = a :: b :: rest → d < 0 →
      interpolate G path d = some (G.extrapolate a d (G.bearing a b))) ∧
    (2 ≤ path.length → lineLen G path < d → interpolate G path d = path.getLast?) := by
  refine ⟨?_, ?_, ?_, ?_⟩
  · intro h2
    match path, h2 with
    | a :: b :: rest, _ =>
      simp only [interpolate]
      cases hl : interpLoop G d (segs (a :: b :: rest)) with
      | some c => simp
      | none =>
        have hs : segs (a :: b :: rest) = (a, b) :: segs (b :: rest) := rfl
        rw [hs]
        simp [List.getLast?_cons]
  · intro h2
    simp only [interpolate, segs_eq_nil path h2]
    rfl
  · intro a b rest hpath hd
    subst hpath
    have h0 : d ≠ 0 := ne_of_lt hd
    have h1 : d < G.dist a b := lt_of_lt_of_le hd (hnn a b)
    simp only [interpolate]
    have hl : interpLoop G d (segs (a :: b :: rest)) =
        some (G.extrapolate a d (G.bearing a b)) := by
      show interpLoop G d ((a, b) :: segs (b :: rest)) = _
      simp only [interpLoop, if_neg h0, if_pos h1]
    rw [hl]
  · intro h2 hlen
    match path, h2 with
    | a :: b :: rest, _ =>
      have hnone := interpLoop_ge G hnn (segs (a :: b :: rest)) d hlen
      simp only [interpolate]
      rw [hnone, segs_getLast?_snd rest a b]
      exact (List.getLast?_cons_cons ..).symm

/-- Witness for `interpolate_total_spec`: a two-vertex path yields a
point, a single-vertex path yields the modelled `IndexError`. -/
theorem interpolate_total_spec_witness :
    (interpolate modelGeo [((0 : ℚ), (0 : ℚ)), (0, 5)] 2).isSome = true ∧
      interpolate modelGeo [((0 : ℚ), (0 : ℚ))] 0 = none :=
  ⟨(interpolate_total_spec modelGeo [(0, 0), (0, 5)] 2 modelGeo_dist_nonneg).1 (by simp),
    (interpolate_total_spec modelGeo [(0, 0)] 0 modelGeo_dist_nonneg).2.1 (by simp)⟩

/-- Witness for `split_join_inverse_at_vertex`: splitting the concrete
three-vertex meridian line at the cumulative offset `1` of its middle
vertex and joining the parts restores the original vertex list. -/
theorem split_join_inverse_at_vertex_witness :
    split_line modelGeo [((0 : ℚ), (0 : ℚ)), (0, 1), (0, 3)] 1 =
        (some [(0, 0), (0, 1)], some [(0, 1), (0, 3)]) ∧
      join_lines [[((0 : ℚ), (0 : ℚ)), (0, 1)], [(0, 1), (0, 3)]] =
        .ok [(0, 0), (0, 1), (0, 3)] := by
  have h := split_join_inverse_at_vertex modelGeo [(0, 0)] (0, 1) (0, 3) [] 1
    (by simp) (fun s _ => modelGeo_dist_nonneg s.1 s.2)
    (by norm_num [modelGeo]) (by norm_num [lineLen, segs, modelGeo])
  simpa using h
